import Mathlib

/-!
Shallow embedding of `minicoro-awaiters` (src/src/lib.rs): the suspension-relay
protocol between a stackful minicoro coroutine and Rust's polled futures.

The embedding models:
* the inner future being awaited as an explicit state machine (`InnerTask`);
* the loop of `CoroutineAwaiter::r#await` (lib.rs:86-99) as a micro-step
  machine over its control points (`relayMicro`) together with its
  resume-level behaviour (`relayResume`);
* a coroutine body as a resume-level state machine (`BodyM`), the stackful
  coroutine collaborator as a phase machine (`CoroPhase`, `coroResume`),
  and `CoroutineFuture::poll` (lib.rs:175-181) as `futPoll`;
* the body built by `CoroutineToken::exec` (lib.rs:213-225) — run `f`, write
  the result into the `MaybeUninit` output cell — as `blockOnBody`, with the
  cell embedded as an `Option` plus a ghost write counter, and the
  `assume_init` read as `execRun`.

Wakers (continuation handles) are identified by numeric ids; the
`AtomicWaker` mailbox is an `Option Nat` slot, `register` overwriting it and
`take` emptying it, as in the `atomic_waker` crate.
-/

namespace MinicoroAwaiters

variable {σ T U β γ : Type}

/-- An inner asynchronous task (the future passed to `r#await`), embedded as a
state machine: `poll` receives the current state and the waker id from the
poll context, and returns the next state together with `some v` for
`Poll::Ready(v)` or `none` for `Poll::Pending`. -/
structure InnerTask (σ T : Type) where
  poll : σ → Nat → σ × Option T

/-- Control points of the loop in `CoroutineAwaiter::r#await` (lib.rs:86-99):
`take` is the inner-loop mailbox read `self.coro.user_data().take()`
(line 89); `pollAt w` is the task poll `f.as_mut().poll(...)` (line 94) with
the handle `w` just taken from the mailbox. -/
inductive RelayPC where
  | take
  | pollAt (w : Nat)
deriving DecidableEq

/-- Observable events of one pass through the `r#await` loop. -/
inductive RelayEvent (T : Type) where
  /-- the mailbox `take()` returned `None` (line 91). -/
  | tookEmpty
  /-- the mailbox `take()` returned `Some w` (line 90). -/
  | tookHandle (w : Nat)
  /-- the inner task was polled with waker `w` (line 94); `r` is its answer. -/
  | polled (w : Nat) (r : Option T)
deriving DecidableEq

/-- How a resume of the `r#await` loop body ends: either the coroutine yielded
(`self.coro.yield_(())`, lines 91 and 96), recording the control point the
next resume continues from, or `r#await` returned a value (line 95). -/
inductive RelayOut (T : Type) where
  | yielded (pc : RelayPC)
  | returned (v : T)
deriving DecidableEq

/-- Result of one micro step of the `r#await` loop: an internal transfer of
control, or a stop of this resume (a yield or a return). -/
inductive MicroOut (σ T : Type) where
  | inner (pc : RelayPC) (mb : Option Nat) (s : σ)
  | stop (o : RelayOut T) (mb : Option Nat) (s : σ)

/-- One micro step of the loop of `CoroutineAwaiter::r#await`, faithful to its
control flow: at `take`, an empty mailbox yields with resumption back at
`take` (the inner `loop` retries the take, line 91), and a full mailbox
consumes the handle and moves to the poll (line 90/94); at `pollAt w`,
`Ready(a)` returns `a` (line 95) and `Pending` yields with resumption at
`take` (line 96 followed by the outer `loop` re-entering the inner take
loop). -/
def relayMicro (task : InnerTask σ T) :
    RelayPC → Option Nat → σ → RelayEvent T × MicroOut σ T
  | .take, none, s => (.tookEmpty, .stop (.yielded .take) none s)
  | .take, some w, s => (.tookHandle w, .inner (.pollAt w) none s)
  | .pollAt w, mb, s =>
    match task.poll s w with
    | (s', some v) => (.polled w (some v), .stop (.returned v) mb s')
    | (s', none) => (.polled w none, .stop (.yielded .take) mb s')

/-- Run `relayMicro` for at most `fuel` steps, collecting events, until the
resume stops (yield or return); `none` when the fuel runs out first. -/
def microRun (task : InnerTask σ T) :
    Nat → RelayPC → Option Nat → σ →
      Option (List (RelayEvent T) × RelayOut T × Option Nat × σ)
  | 0, _, _, _ => none
  | fuel + 1, pc, mb, s =>
    match relayMicro task pc mb s with
    | (e, .stop o mb' s') => some ([e], o, mb', s')
    | (e, .inner pc' mb' s') =>
      match microRun task fuel pc' mb' s' with
      | none => none
      | some (es, o, mb₂, s₂) => some (e :: es, o, mb₂, s₂)

/-- One full resume of the `r#await` loop from its (unique) resumption point
`take`: the events performed, how the resume ended, and the mailbox and task
state afterwards. This is the resume-level reading of `relayMicro`
(`relay_resume_runs_micro` below proves they agree). -/
def relayResume (task : InnerTask σ T) :
    Option Nat → σ → List (RelayEvent T) × RelayOut T × Option Nat × σ
  | none, s => ([.tookEmpty], .yielded .take, none, s)
  | some w, s =>
    match task.poll s w with
    | (s', some v) => ([.tookHandle w, .polled w (some v)], .returned v, none, s')
    | (s', none) => ([.tookHandle w, .polled w none], .yielded .take, none, s')

/-- `true` exactly on the mailbox-read events of the relay. -/
def RelayEvent.isTake : RelayEvent T → Bool
  | .tookEmpty => true
  | .tookHandle _ => true
  | .polled _ _ => false

/-- `true` exactly on the inner-task poll events of the relay. -/
def RelayEvent.isPoll : RelayEvent T → Bool
  | .polled _ _ => true
  | _ => false

/-- How one resume of a coroutine body ends, as the resuming side sees it:
the body yielded (suspending at state `b`), or the body returned. -/
inductive BodyOut (β : Type) where
  | yield (b : β)
  | done

/-- A coroutine body, embedded as a resume-level state machine. `init` is the
state the body starts from on the coroutine's first resume; `step b mb c`
runs the body from suspended state `b` with mailbox contents `mb` and ambient
cell state `c`, and returns the mailbox and cell afterwards, the relay events
this resume performed, and whether the body yielded or returned. -/
structure BodyM (β γ T : Type) where
  init : β
  step : β → Option Nat → γ → Option Nat × γ × List (RelayEvent T) × BodyOut β

/-- Modelled from the spec: the lifecycle of the external stackful-coroutine
collaborator (minicoroutine, not part of this repository), spec §4.2:
`NotStarted → Running/Suspended ⇄ → Finished`, with `NotStarted` initial and
`Finished` terminal. -/
inductive CoroPhase (β : Type) where
  | notStarted
  | suspended (b : β)
  | finished

/-- The state of one `CoroutineFuture` together with its coroutine's control
block: the coroutine's phase, the `AtomicWaker` mailbox (`user_data`), the
ambient cell state `cell` (for `exec`, the `MaybeUninit` output cell), and a
ghost counter `bodyStarts` of how many times the coroutine entry function
(which consumes the leaked body closure, lib.rs:164) has been invoked. -/
structure SysState (β γ : Type) where
  phase : CoroPhase β
  mailbox : Option Nat
  cell : γ
  bodyStarts : Nat

/-- The state of a freshly constructed `CoroutineFuture` (lib.rs:159-169):
coroutine not yet started, mailbox empty, entry function never invoked. -/
def freshSys (c0 : γ) : SysState β γ :=
  ⟨.notStarted, none, c0, 0⟩

/-- Modelled from the spec: `resume` of the external stackful-coroutine
collaborator (spec §6): it returns `some` intermediate while the coroutine is
suspended (it yielded) and `none` on completion; the first resume runs the
body from its start (invoking the entry function once), later resumes run it
from its suspended point, and `Finished` being terminal (spec §4.2), resuming
a finished coroutine runs nothing and reports completion. -/
def coroResume (body : BodyM β γ T) (st : SysState β γ) :
    SysState β γ × Option Unit × List (RelayEvent T) :=
  match st.phase with
  | .finished => (st, none, [])
  | .notStarted =>
    match body.step body.init st.mailbox st.cell with
    | (mb, c, es, .yield b) => (⟨.suspended b, mb, c, st.bodyStarts + 1⟩, some (), es)
    | (mb, c, es, .done) => (⟨.finished, mb, c, st.bodyStarts + 1⟩, none, es)
  | .suspended b0 =>
    match body.step b0 st.mailbox st.cell with
    | (mb, c, es, .yield b) => (⟨.suspended b, mb, c, st.bodyStarts⟩, some (), es)
    | (mb, c, es, .done) => (⟨.finished, mb, c, st.bodyStarts⟩, none, es)

/-- Result of `Future::poll`: `Poll::Pending` or `Poll::Ready(())`
(the wrapper's output type is `()`; `exec` reads its value from the cell). -/
inductive PollRes where
  | pending
  | ready
deriving DecidableEq

/-- `CoroutineFuture::poll` (lib.rs:175-181): register the caller's waker `h`
into the `AtomicWaker` mailbox (`self.coro.user_data().register(...)`,
overwriting any previous waker), then resume the coroutine; `resume`
returning `Some` maps to `Poll::Pending`, `None` to `Poll::Ready(())`. -/
def futPoll (body : BodyM β γ T) (h : Nat) (st : SysState β γ) :
    SysState β γ × PollRes × List (RelayEvent T) :=
  let r := coroResume body { st with mailbox := some h }
  (r.1, (match r.2.1 with | some _ => PollRes.pending | none => PollRes.ready), r.2.2)

/-- The coroutine body built by `CoroutineToken::exec` (lib.rs:217-220) for a
computation of the family `fun a => g (a.r#await task)`: the body's whole
suspension behaviour is the `r#await` loop, so a resume of the body is
`relayResume`; when the relay returns `v`, the body writes `g v` into the
`MaybeUninit` output cell (`c.write(v)`, bumping the ghost write counter) and
then falls off its end. `s0` is the initial state of the inner task. -/
def blockOnBody (task : InnerTask σ T) (s0 : σ) (g : T → U) :
    BodyM σ (Option U × Nat) T where
  init := s0
  step := fun s mb c =>
    match relayResume task mb s with
    | (es, .returned v, mb', _) => (mb', (some (g v), c.2 + 1), es, .done)
    | (es, .yielded _, mb', s') => (mb', c, es, .yield s')

/-- The state `CoroutineToken::exec` (lib.rs:213-221) starts from: a fresh
wrapper whose output cell is uninitialized (`MaybeUninit::uninit()`, embedded
as `none`) and has never been written. -/
def execInit : SysState β (Option U × Nat) :=
  freshSys (none, 0)

/-- Drive a wrapper with a sequence of executor polls carrying the given waker
ids: the final state and the list of poll results, in order. -/
def runPolls (body : BodyM β γ T) : List Nat → SysState β γ → SysState β γ × List PollRes
  | [], st => (st, [])
  | h :: hs, st =>
    let r := futPoll body h st
    let rest := runPolls body hs r.1
    (rest.1, r.2.1 :: rest.2)

/-- `CoroutineToken::exec` (lib.rs:213-225) driven by the waker ids `hs`: poll
the wrapper until it is ready, then perform the `assume_init` read of the
output cell — embedded as reading the `Option` in the cell, so the value of
the read is `some u` exactly when the cell was initialized. The outer `none`
means the polls ran out before the wrapper completed (`exec` never returns in
that case). -/
def execRun (task : InnerTask σ T) (s0 : σ) (g : T → U) :
    List Nat → SysState σ (Option U × Nat) → Option (Option U)
  | [], _ => none
  | h :: hs, st =>
    match futPoll (blockOnBody task s0 g) h st with
    | (st', PollRes.ready, _) => some st'.cell.1
    | (st', PollRes.pending, _) => execRun task s0 g hs st'

/-- An inner task that answers `Pending` for its first `n` polls (where `n` is
its current state) and then `Ready v`; used for the spec's scenarios
(`ready_immediately`, `completes_after_two_polls`). -/
def pendingTask (v : T) : InnerTask Nat T where
  poll := fun s _ =>
    match s with
    | 0 => (0, some v)
    | n + 1 => (n, none)

/-- The initialization invariant of the `exec` output cell: while the
coroutine has not finished, the cell is uninitialized and has never been
written; once it is finished, the cell holds a value and was written exactly
once. -/
def execInv (st : SysState β (Option U × Nat)) : Prop :=
  match st.phase with
  | CoroPhase.finished => ∃ u, st.cell = (some u, 1)
  | _ => st.cell = (none, 0)

/-- The start invariant of a wrapper: the entry function has run at most once,
and not at all while the coroutine is not started. -/
def startInv (st : SysState β γ) : Prop :=
  st.bodyStarts ≤ 1 ∧ (st.phase = CoroPhase.notStarted → st.bodyStarts = 0)

/-- Outcome of a Rust call that may panic: a normal return, or a panic
carrying its message. -/
inductive RustOutcome (α : Type) where
  | ok (a : α)
  | panicked (msg : String)

/-- The message of the panic `Result::unwrap` raises on an error value. -/
def unwrapPanicMsg : String :=
  "called Result::unwrap on an Err value"

/-- `CoroutineFuture::new` (lib.rs:159-169): leak the one-shot body closure
`a`, build the coroutine around the entry function that reclaims and calls
it, and `unwrap` the creation result. Modelled from the spec: creation of the
underlying coroutine (`create(stackConfig, body)`, spec §6, external
collaborator) may fail, e.g. on stack allocation; its success is the
parameter `createOk`. On success the caller gets a wrapper holding the live,
not-yet-started coroutine; on failure the `unwrap` panics — there is no
error-result path to the caller. -/
def coroutineFutureNew (a : BodyM β γ T) (c0 : γ) (createOk : Bool) :
    RustOutcome (SysState β γ) :=
  match a with
  | _ =>
    if createOk then RustOutcome.ok (freshSys c0) else RustOutcome.panicked unwrapPanicMsg

/-- A body that returns immediately on its first resume, touching nothing. -/
def unitBody : BodyM Nat Nat Nat where
  init := 0
  step := fun _ mb c => (mb, c, [], .done)

/-- The resume-level `relayResume` is exactly what running the micro-step
machine from the resumption point `take` does; two micro steps always
suffice. -/
lemma relay_resume_runs_micro (task : InnerTask σ T) (mb : Option Nat) (s : σ) :
    microRun task 2 .take mb s = some (relayResume task mb s) := by
  cases mb with
  | none => rfl
  | some w =>
    rcases hp : task.poll s w with ⟨s', r⟩
    cases r <;> simp [microRun, relayMicro, relayResume, hp]

/-- C1: the Relay's blocking operation `CoroutineAwaiter::r#await`
(lib.rs:86-99) follows exactly the spec's loop: each resume is a finite run
of the micro-step machine from the mailbox take; an empty mailbox makes it
yield at once, retrying the take upon resume; a taken handle `w` is used to
poll the task, whose `Ready a` makes `r#await` return `a` and whose
`Pending` makes it yield, going back to the mailbox take upon resume. -/
theorem relay_await_follows_loop (task : InnerTask σ T) (mb : Option Nat) (s : σ) :
    microRun task 2 .take mb s = some (relayResume task mb s)
    ∧ relayResume task none s = ([.tookEmpty], .yielded .take, none, s)
    ∧ (∀ w, relayResume task (some w) s =
        match task.poll s w with
        | (s', some v) => ([.tookHandle w, .polled w (some v)], .returned v, none, s')
        | (s', none) => ([.tookHandle w, .polled w none], .yielded .take, none, s')) := by
  refine ⟨relay_resume_runs_micro task mb s, rfl, fun w => ?_⟩
  rcases hp : task.poll s w with ⟨s', r⟩
  cases r <;> simp [relayResume, hp]

/-- A wrapper poll answers `Pending` exactly when the resume it performed left
the coroutine suspended (the coroutine yielded). -/
lemma futPoll_pending_iff (body : BodyM β γ T) (h : Nat) (st : SysState β γ) :
    (futPoll body h st).2.1 = PollRes.pending
      ↔ ∃ b, (futPoll body h st).1.phase = CoroPhase.suspended b := by
  rcases st with ⟨ph, mb, c, bs⟩
  cases ph with
  | finished => simp [futPoll, coroResume]
  | notStarted =>
    rcases hs : body.step body.init (some h) c with ⟨mb₂, c₂, es, out⟩
    cases out <;> simp [futPoll, coroResume, hs]
  | suspended b0 =>
    rcases hs : body.step b0 (some h) c with ⟨mb₂, c₂, es, out⟩
    cases out <;> simp [futPoll, coroResume, hs]

/-- A wrapper poll answers `Ready` exactly when the resume it performed left
the coroutine finished (the coroutine body returned). -/
lemma futPoll_ready_iff (body : BodyM β γ T) (h : Nat) (st : SysState β γ) :
    (futPoll body h st).2.1 = PollRes.ready
      ↔ (futPoll body h st).1.phase = CoroPhase.finished := by
  rcases st with ⟨ph, mb, c, bs⟩
  cases ph with
  | finished => simp [futPoll, coroResume]
  | notStarted =>
    rcases hs : body.step body.init (some h) c with ⟨mb₂, c₂, es, out⟩
    cases out <;> simp [futPoll, coroResume, hs]
  | suspended b0 =>
    rcases hs : body.step b0 (some h) c with ⟨mb₂, c₂, es, out⟩
    cases out <;> simp [futPoll, coroResume, hs]

/-- C3: `CoroutineFuture::poll` (lib.rs:175-181) first deposits the supplied
waker into the mailbox — overwriting whatever was there, so the prior mailbox
contents are irrelevant — then resumes the coroutine, and answers `Pending`
if and only if the coroutine yielded (it is left suspended), `Ready` exactly
once the coroutine body has returned (it is left finished). -/
theorem future_poll_deposit_then_resume (body : BodyM β γ T) (h : Nat)
    (st : SysState β γ) :
    (futPoll body h st =
      (let r := coroResume body { st with mailbox := some h };
       (r.1, (match r.2.1 with | some _ => PollRes.pending | none => PollRes.ready),
        r.2.2)))
    ∧ (∀ mb', futPoll body h { st with mailbox := mb' } = futPoll body h st)
    ∧ ((futPoll body h st).2.1 = PollRes.pending
        ↔ ∃ b, (futPoll body h st).1.phase = CoroPhase.suspended b)
    ∧ ((futPoll body h st).2.1 = PollRes.ready
        ↔ (futPoll body h st).1.phase = CoroPhase.finished) :=
  ⟨rfl, fun _ => rfl, futPoll_pending_iff body h st, futPoll_ready_iff body h st⟩

/-- C6: polling a wrapper whose coroutine is finished does not resume
coroutine execution — the state is unchanged apart from the freshly
registered waker, no relay events happen, the entry-function count stays
put, and the poll keeps answering `Ready`. -/
theorem poll_after_finished_inert (body : BodyM β γ T) (h : Nat) (st : SysState β γ)
    (hfin : st.phase = CoroPhase.finished) :
    futPoll body h st
      = ({ st with mailbox := some h }, PollRes.ready, ([] : List (RelayEvent T))) := by
  rcases st with ⟨ph, mb, c, bs⟩
  cases hfin
  rfl

/-- Witness for C6 at a concrete finished wrapper: the poll only re-registers
the waker and reports `Ready` again. -/
theorem poll_after_finished_inert_w :
    futPoll unitBody 7 ⟨CoroPhase.finished, none, 0, 1⟩
      = (⟨CoroPhase.finished, some 7, 0, 1⟩, PollRes.ready, ([] : List (RelayEvent Nat))) :=
  poll_after_finished_inert unitBody 7 ⟨CoroPhase.finished, none, 0, 1⟩ rfl

/-- C7: within one resume of the `r#await` loop the coroutine never
busy-spins: the mailbox is checked at most once and the inner task is polled
at most once (so neither happens twice without an intervening
yield-and-resume), and both an empty mailbox check and a `Pending` answer
from the task are immediately followed by a yield back to the Wrapper. -/
theorem relay_no_busy_spin (task : InnerTask σ T) (mb : Option Nat) (s : σ) :
    (relayResume task mb s).1.countP RelayEvent.isTake ≤ 1
    ∧ (relayResume task mb s).1.countP RelayEvent.isPoll ≤ 1
    ∧ (RelayEvent.tookEmpty ∈ (relayResume task mb s).1 →
        (relayResume task mb s).2.1 = RelayOut.yielded RelayPC.take)
    ∧ (∀ w, RelayEvent.polled w (none : Option T) ∈ (relayResume task mb s).1 →
        (relayResume task mb s).2.1 = RelayOut.yielded RelayPC.take) := by
  cases mb with
  | none => simp [relayResume, List.countP_cons, RelayEvent.isTake, RelayEvent.isPoll]
  | some w =>
    rcases hp : task.poll s w with ⟨s', r⟩
    cases r <;>
      simp [relayResume, hp, List.countP_cons, RelayEvent.isTake, RelayEvent.isPoll]

/-- C8: every resume performed by a wrapper poll with waker `h` sees only the
handle `h`: either the coroutine is finished and no relay event happens at
all, or the resume's whole event trace is a take of exactly `h` — the handle
deposited immediately before this very resume, never a stale or missing one —
followed by one poll of the inner task re-waking through `h`. -/
theorem poll_uses_fresh_handle (task : InnerTask σ T) (s0 : σ) (g : T → U) (h : Nat)
    (st : SysState σ (Option U × Nat)) :
    (futPoll (blockOnBody task s0 g) h st).2.2 = []
    ∨ ∃ r, (futPoll (blockOnBody task s0 g) h st).2.2
        = [RelayEvent.tookHandle h, RelayEvent.polled h r] := by
  rcases st with ⟨ph, mb, c, bs⟩
  cases ph with
  | finished => left; rfl
  | notStarted =>
    right
    rcases hp : task.poll s0 h with ⟨s', r⟩
    exact ⟨r, by cases r <;> simp [futPoll, coroResume, blockOnBody, relayResume, hp]⟩
  | suspended b0 =>
    right
    rcases hp : task.poll b0 h with ⟨s', r⟩
    exact ⟨r, by cases r <;> simp [futPoll, coroResume, blockOnBody, relayResume, hp]⟩

/-- One wrapper poll preserves the start invariant: the entry function runs
only on the transition out of `notStarted`, and `notStarted` is never
re-entered. -/
lemma startInv_futPoll (body : BodyM β γ T) (h : Nat) (st : SysState β γ)
    (hinv : startInv st) : startInv (futPoll body h st).1 := by
  rcases st with ⟨ph, mb, c, bs⟩
  rcases hinv with ⟨hle, hns⟩
  cases ph with
  | finished => exact ⟨hle, fun hc => absurd hc (by simp [futPoll, coroResume])⟩
  | notStarted =>
    have hbs : bs = 0 := hns rfl
    subst hbs
    rcases hs : body.step body.init (some h) c with ⟨mb₂, c₂, es, out⟩
    cases out <;> simp [startInv, futPoll, coroResume, hs]
  | suspended b0 =>
    rcases hs : body.step b0 (some h) c with ⟨mb₂, c₂, es, out⟩
    cases out <;> simp_all [startInv, futPoll, coroResume, hs]

/-- Any sequence of wrapper polls preserves the start invariant. -/
lemma startInv_runPolls (body : BodyM β γ T) (hs : List Nat) (st : SysState β γ)
    (hinv : startInv st) : startInv (runPolls body hs st).1 := by
  induction hs generalizing st with
  | nil => exact hinv
  | cons h tl ih => exact ih _ (startInv_futPoll body h st hinv)

/-- C9: the leaked one-shot body closure is reclaimed (`Box::from_raw`,
lib.rs:164) only inside the coroutine entry function, and however many times
a freshly constructed wrapper is polled, that entry function runs at most
once — the `FnOnce` is never double-consumed and the box never double-freed. -/
theorem body_closure_runs_at_most_once (body : BodyM β γ T) (hs : List Nat) (c0 : γ) :
    ((runPolls body hs (freshSys c0)).1).bodyStarts ≤ 1 :=
  (startInv_runPolls body hs (freshSys c0) ⟨Nat.zero_le 1, fun _ => rfl⟩).1

/-- C10: `CoroutineFuture::new` (lib.rs:159-169) either returns a constructed
wrapper or panics: when the underlying coroutine creation succeeds the caller
gets a wrapper holding the live, not-yet-started coroutine, and when it fails
`new` panics via `unwrap` — no error value is ever returned. -/
theorem new_unwraps_creation (a : BodyM β γ T) (c0 : γ) (createOk : Bool) :
    (coroutineFutureNew a c0 createOk
      = if createOk then RustOutcome.ok (freshSys c0)
        else RustOutcome.panicked unwrapPanicMsg)
    ∧ ((∃ w, coroutineFutureNew a c0 createOk = RustOutcome.ok w
          ∧ w.phase = CoroPhase.notStarted)
        ∨ coroutineFutureNew a c0 createOk = RustOutcome.panicked unwrapPanicMsg) := by
  refine ⟨rfl, ?_⟩
  cases createOk with
  | false => right; rfl
  | true => exact Or.inl ⟨freshSys c0, rfl, rfl⟩

/-- Driving `exec` from a coroutine suspended inside the relay with `n`
`Pending` answers left in the inner task completes, and the `assume_init`
read returns the value the body wrote. -/
lemma execRun_from_suspended (v : T) (N : Nat) (g : T → U) :
    ∀ (n : Nat) (hs : List Nat) (mb : Option Nat) (c : Option U × Nat) (bs : Nat),
      n + 1 ≤ hs.length →
      execRun (pendingTask v) N g hs ⟨CoroPhase.suspended n, mb, c, bs⟩
        = some (some (g v)) := by
  intro n
  induction n with
  | zero =>
    intro hs mb c bs hlen
    cases hs with
    | nil => simp at hlen
    | cons h tl =>
      simp [execRun, futPoll, coroResume, blockOnBody, relayResume, pendingTask]
  | succ m ih =>
    intro hs mb c bs hlen
    cases hs with
    | nil => simp at hlen
    | cons h tl =>
      have htl : m + 1 ≤ tl.length := by
        simp only [List.length_cons] at hlen
        omega
      simp only [execRun, futPoll, coroResume, blockOnBody, relayResume, pendingTask]
      exact ih tl none c bs htl

/-- C2: for the computations `fun a => g (a.r#await task)` handed to
`CoroutineToken::exec` (lib.rs:208-227) over a task that is ready with `v`
after `N` `Pending` answers, driving the returned future to completion (at
least `N + 1` polls) completes with exactly the value the computation
produced: the cell read at the end returns `some (g v)`. In particular a
body blocking on an immediately ready task producing `5` completes with `5`
(see the witness). -/
theorem exec_completes_with_body_value (v : T) (N : Nat) (g : T → U) (hs : List Nat)
    (hlen : N + 1 ≤ hs.length) :
    execRun (pendingTask v) N g hs execInit = some (some (g v)) := by
  cases hs with
  | nil => simp at hlen
  | cons h tl =>
    cases N with
    | zero =>
      simp [execRun, execInit, freshSys, futPoll, coroResume, blockOnBody, relayResume,
        pendingTask]
    | succ M =>
      have htl : M + 1 ≤ tl.length := by
        simp only [List.length_cons] at hlen
        omega
      simp only [execRun, execInit, freshSys, futPoll, coroResume, blockOnBody,
        relayResume, pendingTask]
      exact execRun_from_suspended v (M + 1) g M tl none (none, 0) 1 htl

/-- Witness for C2: the spec's scenario — the body blocks on the immediately
ready task producing `5`, one poll suffices, and `exec` completes with `5`. -/
theorem exec_completes_with_body_value_w :
    execRun (pendingTask 5) 0 (fun x => x) [0] execInit = some (some 5) :=
  exec_completes_with_body_value 5 0 (fun x => x) [0] (by decide)

/-- From a coroutine suspended inside the relay with `n` `Pending` answers
left in the inner task, `n + 1` wrapper polls answer `Pending` `n` times and
then `Ready`. -/
lemma runPolls_from_suspended (v : T) (N : Nat) (g : T → U) :
    ∀ (n : Nat) (hs : List Nat) (mb : Option Nat) (c : Option U × Nat) (bs : Nat),
      hs.length = n + 1 →
      (runPolls (blockOnBody (pendingTask v) N g) hs
          ⟨CoroPhase.suspended n, mb, c, bs⟩).2
        = List.replicate n PollRes.pending ++ [PollRes.ready] := by
  intro n
  induction n with
  | zero =>
    intro hs mb c bs hlen
    cases hs with
    | nil => simp at hlen
    | cons h tl =>
      have htl : tl = [] := by
        simp only [List.length_cons, Nat.add_right_cancel_iff] at hlen
        exact List.length_eq_zero.mp hlen
      subst htl
      simp [runPolls, futPoll, coroResume, blockOnBody, relayResume, pendingTask]
  | succ m ih =>
    intro hs mb c bs hlen
    cases hs with
    | nil => simp at hlen
    | cons h tl =>
      have htl : tl.length = m + 1 := by
        simp only [List.length_cons] at hlen
        omega
      simp only [runPolls, futPoll, coroResume, blockOnBody, relayResume, pendingTask,
        List.replicate_succ, List.cons_append]
      exact congrArg (PollRes.pending :: ·) (ih tl none c bs htl)

/-- C4: a wrapper whose coroutine body blocks on an inner task that completes
after exactly `N` `Pending` answers reports `Pending` exactly `N` times and
then `Ready`; for `N = 0` the very first wrapper poll reports `Ready`. -/
theorem wrapper_pending_exactly_n (v : T) (N : Nat) (g : T → U) (hs : List Nat)
    (hlen : hs.length = N + 1) :
    (runPolls (blockOnBody (pendingTask v) N g) hs execInit).2
      = List.replicate N PollRes.pending ++ [PollRes.ready] := by
  cases hs with
  | nil => simp at hlen
  | cons h tl =>
    cases N with
    | zero =>
      have htl : tl = [] := by
        simp only [List.length_cons, Nat.add_right_cancel_iff] at hlen
        exact List.length_eq_zero.mp hlen
      subst htl
      simp [runPolls, execInit, freshSys, futPoll, coroResume, blockOnBody, relayResume,
        pendingTask]
    | succ M =>
      have htl : tl.length = M + 1 := by
        simp only [List.length_cons] at hlen
        omega
      simp only [runPolls, execInit, freshSys, futPoll, coroResume, blockOnBody,
        relayResume, pendingTask, List.replicate_succ, List.cons_append]
      exact congrArg (PollRes.pending :: ·)
        (runPolls_from_suspended v (M + 1) g M tl none (none, 0) 1 htl)

/-- Witness for C4 at `N = 2`: three polls answer `Pending`, `Pending`,
`Ready` — the spec's `completes_after_two_polls` scenario. -/
theorem wrapper_pending_exactly_n_w :
    (runPolls (blockOnBody (pendingTask 7) 2 (fun x => x)) [0, 1, 2] execInit).2
      = List.replicate 2 PollRes.pending ++ [PollRes.ready] :=
  wrapper_pending_exactly_n 7 2 (fun x => x) [0, 1, 2] (by decide)

/-- One wrapper poll preserves the cell-initialization invariant: the only
transition to `finished` is the body returning, which writes the cell (then
holding exactly one write), and polls of a finished coroutine touch nothing. -/
lemma execInv_futPoll (task : InnerTask σ T) (s0 : σ) (g : T → U) (h : Nat)
    (st : SysState σ (Option U × Nat)) (hinv : execInv st) :
    execInv (futPoll (blockOnBody task s0 g) h st).1 := by
  rcases st with ⟨ph, mb, c, bs⟩
  cases ph with
  | finished => exact hinv
  | notStarted =>
    have hc : c = (none, 0) := hinv
    subst hc
    rcases hp : task.poll s0 h with ⟨s', r⟩
    cases r with
    | none =>
      simp only [futPoll, coroResume, blockOnBody, relayResume, hp]
      exact rfl
    | some v =>
      simp only [futPoll, coroResume, blockOnBody, relayResume, hp]
      exact ⟨g v, rfl⟩
  | suspended b0 =>
    have hc : c = (none, 0) := hinv
    subst hc
    rcases hp : task.poll b0 h with ⟨s', r⟩
    cases r with
    | none =>
      simp only [futPoll, coroResume, blockOnBody, relayResume, hp]
      exact rfl
    | some v =>
      simp only [futPoll, coroResume, blockOnBody, relayResume, hp]
      exact ⟨g v, rfl⟩

/-- Any sequence of wrapper polls preserves the cell-initialization
invariant. -/
lemma execInv_runPolls (task : InnerTask σ T) (s0 : σ) (g : T → U) (hs : List Nat)
    (st : SysState σ (Option U × Nat)) (hinv : execInv st) :
    execInv (runPolls (blockOnBody task s0 g) hs st).1 := by
  induction hs generalizing st with
  | nil => exact hinv
  | cons h tl ih => exact ih _ (execInv_futPoll task s0 g h st hinv)

/-- When `execRun` performs its `assume_init` read, the cell it reads is
initialized: the read happens only after a `Ready` poll, a `Ready` poll
leaves the coroutine finished, and the invariant puts a written value in the
cell of every finished state. -/
lemma execRun_reads_initialized (task : InnerTask σ T) (s0 : σ) (g : T → U) :
    ∀ (hs : List Nat) (st : SysState σ (Option U × Nat)) (r : Option U),
      execInv st → execRun task s0 g hs st = some r → ∃ u, r = some u := by
  intro hs
  induction hs with
  | nil =>
    intro st r _ hrun
    simp [execRun] at hrun
  | cons h tl ih =>
    intro st r hinv hrun
    rcases hfp : futPoll (blockOnBody task s0 g) h st with ⟨st', pr, es⟩
    have hinv' : execInv st' := by
      have hstep := execInv_futPoll task s0 g h st hinv
      rwa [hfp] at hstep
    cases pr with
    | pending =>
      rw [execRun, hfp] at hrun
      exact ih st' r hinv' hrun
    | ready =>
      have hfin : st'.phase = CoroPhase.finished := by
        have hr := (futPoll_ready_iff (blockOnBody task s0 g) h st).mp (by rw [hfp])
        rwa [hfp] at hr
      rw [execRun, hfp] at hrun
      rcases st' with ⟨ph', mb', c', bs'⟩
      cases hfin
      rcases hinv' with ⟨u, hu⟩
      refine ⟨u, ?_⟩
      simp only [Option.some.injEq] at hrun
      have hc' : c' = (some u, 1) := hu
      rw [← hrun, hc']

/-- The initial `exec` state satisfies the cell-initialization invariant. -/
lemma execInv_execInit : execInv (execInit : SysState β (Option U × Nat)) := rfl

/-- C5: the `MaybeUninit` output cell of `CoroutineToken::exec`
(lib.rs:213-225) is never read uninitialized: whatever the interleaving of
polls, the `assume_init` read — which happens only after the wrapper reported
`Ready` — returns a written value, and across the whole run the cell holds
`(none, 0 writes)` until the coroutine body finishes and exactly one written
value from then on. -/
theorem exec_cell_initialized_before_read (task : InnerTask σ T) (s0 : σ) (g : T → U)
    (hs : List Nat) (r : Option U)
    (hrun : execRun task s0 g hs execInit = some r) :
    (∃ u, r = some u)
    ∧ execInv ((runPolls (blockOnBody task s0 g) hs execInit).1) :=
  ⟨execRun_reads_initialized task s0 g hs execInit r execInv_execInit hrun,
   execInv_runPolls task s0 g hs execInit execInv_execInit⟩

/-- Witness for C5: in the ready-immediately run the read returns the written
value `5`, and the final state satisfies the initialization invariant. -/
theorem exec_cell_initialized_before_read_w :
    (∃ u, (some 5 : Option Nat) = some u)
    ∧ execInv ((runPolls (blockOnBody (pendingTask 5) 0 (fun x => x)) [0] execInit).1) :=
  exec_cell_initialized_before_read (pendingTask 5) 0 (fun x => x) [0] (some 5) rfl

end MinicoroAwaiters
